import Mathlib

/-!
# DuckTales — verification of the spec against the sources

The repository is a collection of demo drivers over a lakehouse catalog
("DuckLake").  Two utility functions (`format_size`, `cleanup_ducklake` in
`src/utils/ducklake_utils.py`) are plain Python and are embedded here
directly.  The versioned catalog engine itself (snapshot allocation,
transaction commit/abort, schema versioning, time-travel resolution, write
inlining, GC) is exercised by the demos through SQL but its implementation is
not part of the sources; it is modelled from the spec's component design
(spec.md §3–§4) in the `DuckLake` namespace below.
-/

namespace DuckUtils

/-! ## `format_size` (src/utils/ducklake_utils.py, lines 156–162)

The Python source loops over the units "B", "KB", "MB", "GB": if the running
value is below 1024.0 it returns the value rendered to two decimal places
followed by the unit, otherwise it divides the value by 1024.0 and moves to
the next unit; after the loop it renders with unit "TB".

Python floats are IEEE binary64; division by 1024 only decrements the
exponent, so every value taken by the running variable is exactly
`b / 1024 ^ k` as a rational (for integer inputs up to `2 ^ 53`, which
convert to float exactly).  The embedding therefore works over `ℚ`.  The
`.2f` format rounds the exact value of the float to two decimal places with
ties going to the even hundredth (IEEE round-half-even as exposed by
CPython's float formatting). -/

/-- Round a rational to the nearest integer, ties to even: the rounding used
by CPython when formatting a binary float with `:.2f`. -/
def roundHalfEven (q : ℚ) : ℤ :=
  let f : ℤ := ⌊q⌋
  let r : ℚ := q - f
  if r < 1/2 then f
  else if 1/2 < r then f + 1
  else if f % 2 = 0 then f else f + 1

/-- Two-decimal rendering of a nonnegative rational, as the `.2f` format does. -/
def renderF2nn (q : ℚ) : String :=
  let n : ℤ := roundHalfEven (q * 100)
  toString (n / 100) ++ "." ++ (if n % 100 < 10 then "0" else "") ++ toString (n % 100)

/-- Two-decimal rendering of a rational, as the `.2f` format does. -/
def renderF2 (q : ℚ) : String :=
  if q < 0 then "-" ++ renderF2nn (-q) else renderF2nn q

/-- The loop of `format_size`: the remaining unit list and the running value. -/
def formatSizeAux : List String → ℚ → String
  | [], b => renderF2 b ++ " TB"
  | u :: us, b => if b < 1024 then renderF2 b ++ " " ++ u else formatSizeAux us (b / 1024)

/-- `format_size` from `src/utils/ducklake_utils.py`. -/
def format_size (b : ℚ) : String :=
  formatSizeAux ["B", "KB", "MB", "GB"] b

/-! ## `cleanup_ducklake` (src/utils/ducklake_utils.py, lines 115–134)

The Python source strips a leading nine-character tag reading "ducklake:"
from the catalog path when present (taking the slice from index 9), calls
`os.remove` on the resulting base path when `os.path.exists` says it exists,
then calls `shutil.rmtree` on the base path with ".files" appended when that
exists.

The filesystem is modelled as the list of existing regular-file paths and the
list of existing directory paths (a directory entry stands for the whole tree
rooted there, as `shutil.rmtree` removes it wholesale).  Paths are lists of
characters.  `os.remove` raises on a directory (`IsADirectoryError`) and
`shutil.rmtree` raises on a regular file (`NotADirectoryError`); both are
modelled by `none`. -/

abbrev Path := List Char

/-- The nine characters of the "ducklake:" catalog tag. -/
def ducklakeTag : Path := "ducklake:".toList

/-- The ".files" suffix appended to the base path for the data directory. -/
def dotFiles : Path := ".files".toList

/-- A filesystem: which paths exist as regular files, which as directories. -/
structure FS where
  files : List Path
  dirs : List Path
deriving DecidableEq

/-- `os.path.exists`: the path is a file or a directory. -/
def pathExists (fs : FS) (p : Path) : Prop :=
  p ∈ fs.files ∨ p ∈ fs.dirs

instance (fs : FS) (p : Path) : Decidable (pathExists fs p) :=
  inferInstanceAs (Decidable (_ ∨ _))

/-- `os.remove`: deletes a regular file; raises (`none`) on a directory. -/
def osRemove (fs : FS) (p : Path) : Option FS :=
  if p ∈ fs.dirs then none
  else some { fs with files := fs.files.filter (fun q => q ≠ p) }

/-- `shutil.rmtree`: deletes a directory tree; raises (`none`) on a file. -/
def rmtree (fs : FS) (p : Path) : Option FS :=
  if p ∈ fs.files then none
  else some { fs with dirs := fs.dirs.filter (fun q => q ≠ p) }

/-- The strip at the head of `cleanup_ducklake`: the slice from index 9 when
the path starts with the nine-character "ducklake:" tag. -/
def stripTag (p : Path) : Path :=
  if p.take 9 = ducklakeTag then p.drop 9 else p

/-- The body of `cleanup_ducklake` after the tag strip: remove the catalog
file at `base`, then the data directory at `base` + ".files", when present;
a raised exception anywhere aborts the rest (`Option.bind`). -/
def cleanupBase (fs : FS) (base : Path) : Option FS :=
  (if pathExists fs base then osRemove fs base else some fs).bind (fun fs1 =>
    if pathExists fs1 (base ++ dotFiles) then rmtree fs1 (base ++ dotFiles) else some fs1)

/-- `cleanup_ducklake` from `src/utils/ducklake_utils.py`:
remove the catalog file and its ".files" data directory when present. -/
def cleanup_ducklake (fs : FS) (catalogPath : Path) : Option FS :=
  cleanupBase fs (stripTag catalogPath)

/-- A concrete filesystem for the `cleanup_ducklake` witness: the catalog
file, an unrelated file, the catalog's data directory and an unrelated
directory. -/
def fsW : FS :=
  ⟨["cat.db".toList, "other.txt".toList],
   ["cat.db.files".toList, "keep".toList]⟩

end DuckUtils

namespace DuckLake

/-! ## The versioned catalog and manifest engine, modelled from the spec

The demos drive this engine only through SQL, so every definition in this
namespace carries a doc comment starting `Modelled from the spec:` naming
the missing component it models (spec.md §3 data model, §4 component
design, §4.4 resolver, §4.2 inlining, §4.5 GC). -/

/-- Modelled from the spec: a cell value of a row in the missing SQL layer
(spec §3); enough structure for primary keys, defaults and NOT NULL. -/
inductive Value
  | int (n : ℤ)
  | str (s : String)
  | null
deriving DecidableEq

/-- Modelled from the spec: a row, positional against the table's columns. -/
abbrev Row := List Value

/-- Modelled from the spec: one column of a SchemaVersion — name, type
elided to the value universe, nullability, optional default (spec §3). -/
structure Column where
  name : String
  nullable : Bool
  default : Option Value
deriving DecidableEq

/-- Modelled from the spec: a SchemaVersion — version id, ordered columns,
and the snapshot that introduced it; immutable once superseded (spec §3). -/
structure SchemaVersion where
  versionId : ℕ
  columns : List Column
  validFrom : ℕ
deriving DecidableEq

/-- Modelled from the spec: one manifest entry — a physical FileEntry
(immutable once written) or an InlineRowSet kept in catalog metadata
(spec §3). -/
inductive Entry
  | file (ref : ℕ) (rows : List Row)
  | inline (rows : List Row)
deriving DecidableEq

/-- The rows an entry contributes — an InlineRowSet is logically equivalent
to a FileEntry for query purposes (spec §3). -/
def Entry.rows : Entry → List Row
  | .file _ rs => rs
  | .inline rs => rs

/-- Modelled from the spec: a Manifest — the set of entries constituting a
table's content as of one snapshot, tagged with the snapshot id and its
timestamp (spec §3). -/
structure Manifest where
  snap : ℕ
  time : ℕ
  entries : List Entry
deriving DecidableEq

/-- The effective row set of a manifest. -/
def Manifest.rows (m : Manifest) : List Row :=
  (m.entries.map Entry.rows).join

/-- Modelled from the spec: a Table — name, optional primary-key column,
schema history, manifest history, current-snapshot pointer (spec §3). -/
structure Table where
  name : String
  pkCol : Option ℕ
  schemaHistory : List SchemaVersion
  manifestHistory : List Manifest
  currentSnap : ℕ
deriving DecidableEq

/-- The columns of the table's current SchemaVersion. -/
def Table.currentColumns (t : Table) : List Column :=
  match t.schemaHistory.getLast? with
  | some sv => sv.columns
  | none => []

/-- The table's current schema-version id: the length of its history (one
new SchemaVersion per schema-changing commit, spec §3). -/
def Table.currentVid (t : Table) : ℕ :=
  t.schemaHistory.length

/-- The table's current effective row set: the last manifest's rows. -/
def Table.currentRows (t : Table) : List Row :=
  match t.manifestHistory.getLast? with
  | some m => m.rows
  | none => []

/-- Modelled from the spec: a Snapshot record — monotonically increasing id
and timestamp (spec §3). -/
structure Snapshot where
  id : ℕ
  time : ℕ
deriving DecidableEq

/-- Modelled from the spec: the catalog — tables, the global snapshot list,
the next snapshot id to allocate, and a logical clock for timestamps
(spec §3, §6 persisted state layout). -/
structure Catalog where
  tables : List Table
  snapshots : List Snapshot
  nextSnapshotId : ℕ
  clock : ℕ
deriving DecidableEq

/-- Look a table up by name. -/
def Catalog.findTable (cat : Catalog) (nm : String) : Option Table :=
  cat.tables.find? (fun t => t.name = nm)

/-- Modelled from the spec: a staged mutation — insert, unqualified delete,
a data-carried update (set one column where another equals a value), or a
staged add-column schema change (spec §4.1 stage, §4.3). -/
inductive Mutation
  | insertRows (rows : List Row)
  | deleteAll
  | update (whereCol : ℕ) (whereVal : Value) (setCol : ℕ) (newVal : Value)
  | addColumn (c : Column)
deriving DecidableEq

/-- Modelled from the spec: the per-table optimistic read view a transaction
records at begin — the snapshot id and schema-version id visible at start
(spec §4.1 begin). -/
structure TableRead where
  table : String
  startSnap : ℕ
  startVid : ℕ
deriving DecidableEq

/-- Modelled from the spec: a Transaction — recorded read views plus the
ordered staged mutations; not durable until committed (spec §3). -/
structure Transaction where
  reads : List TableRead
  muts : List (String × Mutation)
deriving DecidableEq

/-- Modelled from the spec: `begin` records, for every table the caller may
touch, the snapshot and schema-version ids visible at start (spec §4.1). -/
def beginTx (cat : Catalog) (names : List String) : Transaction :=
  { reads := names.filterMap (fun nm =>
      (cat.findTable nm).map (fun t => ⟨nm, t.currentSnap, t.currentVid⟩)),
    muts := [] }

/-- Modelled from the spec: `stage` buffers a mutation in memory; no catalog
row is written yet (spec §4.1). -/
def Transaction.stage (tx : Transaction) (nm : String) (m : Mutation) : Transaction :=
  { tx with muts := tx.muts ++ [(nm, m)] }

/-- The staged mutations of one table, in staging order. -/
def mutsFor (tx : Transaction) (nm : String) : List Mutation :=
  (tx.muts.filter (fun p => p.1 = nm)).map Prod.snd

/-- Modelled from the spec: the commit-time error taxonomy —
optimistic-concurrency loss, constraint violation, schema changed under a
stale writer (spec §7). -/
inductive CommitError
  | conflict
  | validation
  | schemaConflict
deriving DecidableEq

instance {ε α : Type} [DecidableEq ε] [DecidableEq α] : DecidableEq (Except ε α) := fun x y =>
  match x, y with
  | .ok a, .ok b =>
    if h : a = b then isTrue (congrArg Except.ok h)
    else isFalse (fun he => h (Except.ok.inj he))
  | .error e, .error f =>
    if h : e = f then isTrue (congrArg Except.error h)
    else isFalse (fun he => h (Except.error.inj he))
  | .ok _, .error _ => isFalse (fun he => Except.noConfusion he)
  | .error _, .ok _ => isFalse (fun he => Except.noConfusion he)

/-- Modelled from the spec: the commit-time staleness check for one recorded
read view: a moved current-snapshot pointer is a conflict, distinguishable
as `schemaConflict` when the schema version also changed (spec §4.1 step 2,
§5 last sentence). -/
def checkRead (cat : Catalog) (r : TableRead) : Option CommitError :=
  match cat.findTable r.table with
  | none => none
  | some t =>
    if t.currentSnap = r.startSnap then none
    else if t.currentVid ≠ r.startVid then some .schemaConflict
    else some .conflict

/-- Modelled from the spec: the stale-view check over every recorded read,
first failure wins (spec §4.1 step 2). -/
def checkConflicts (cat : Catalog) (tx : Transaction) : Option CommitError :=
  tx.reads.foldl (fun acc r => acc <|> checkRead cat r) none

/-- Modelled from the spec: the inlining threshold, "in the spirit of a few
hundred rows" (spec §4.2); counted in rows here. -/
def inlineThreshold : ℕ := 256

/-- Modelled from the spec: a freshly staged batch of rows becomes an
InlineRowSet below the threshold and a physical FileEntry above it
(spec §4.2). -/
def mkEntry (ref : ℕ) (rows : List Row) : Entry :=
  if rows.length < inlineThreshold then .inline rows else .file ref rows

/-- Does the row satisfy the update's where-clause. -/
def rowMatches (c : ℕ) (v : Value) (r : Row) : Bool :=
  r[c]? = some v

/-- Apply an update to one row. -/
def updRow (wc : ℕ) (wv : Value) (sc : ℕ) (nv : Value) (r : Row) : Row :=
  if rowMatches wc wv r then r.set sc nv else r

/-- Does the entry contain any row touched by the update. -/
def Entry.touched (wc : ℕ) (wv : Value) (e : Entry) : Bool :=
  e.rows.any (rowMatches wc wv)

/-- Modelled from the spec: applying one staged mutation to the in-flight
(columns, entries) state of a table. Inserts append one entry; an
unqualified delete empties the entries; updates use copy-on-write at entry
granularity — an entry containing a touched row is superseded by a new file
holding the merged result, untouched entries are shared (spec §4.2);
add-column appends the column and rewrites no entry (spec §3 invariant d). -/
def applyMut (n : ℕ) : List Column × List Entry → Mutation → List Column × List Entry
  | (cols, es), .insertRows rs => (cols, es ++ [mkEntry n rs])
  | (cols, _), .deleteAll => (cols, [])
  | (cols, es), .update wc wv sc nv =>
      (cols, es.map (fun e =>
        if e.touched wc wv then .file n (e.rows.map (updRow wc wv sc nv)) else e))
  | (cols, es), .addColumn c => (cols ++ [c], es)

/-- Did the staged mutations of this table include a schema change. -/
def hasDDL (ms : List Mutation) : Bool :=
  ms.any (fun m => match m with | .addColumn _ => true | _ => false)

/-- The entries of the table's last manifest (empty when none exists). -/
def lastEntries (t : Table) : List Entry :=
  match t.manifestHistory.getLast? with
  | some m => m.entries
  | none => []

/-- The (columns, entries) state of a table after folding the transaction's
staged mutations over its current state. -/
def txResult (n : ℕ) (tx : Transaction) (t : Table) : List Column × List Entry :=
  (mutsFor tx t.name).foldl (applyMut n) (t.currentColumns, lastEntries t)

/-- Modelled from the spec: the commit-time effect on one table. A table the
transaction did not touch is untouched (its prior Manifest is reused,
spec §3); a touched table gets one new Manifest computed from the prior
entries and, when DDL was staged, one new SchemaVersion tied to the new
snapshot, and its current-snapshot pointer advances (spec §4.1 steps 4–5,
§4.2, §4.3). -/
def applyTable (n time : ℕ) (tx : Transaction) (t : Table) : Table :=
  if (mutsFor tx t.name).isEmpty then t
  else
    { t with
      manifestHistory := t.manifestHistory ++ [⟨n, time, (txResult n tx t).2⟩],
      schemaHistory :=
        if hasDDL (mutsFor tx t.name) then
          t.schemaHistory ++ [⟨t.schemaHistory.length, (txResult n tx t).1, n⟩]
        else t.schemaHistory,
      currentSnap := n }

/-- Modelled from the spec: reader-side padding — a row written under an
earlier, shorter schema is extended with the defaults of the columns added
after it was written (add-column never rewrites files, spec §3 invariant d,
§4.3). -/
def padRow (cols : List Column) (r : Row) : Row :=
  r ++ (cols.drop r.length).map (fun c => c.default.getD .null)

/-- The table's current rows padded to its current schema. -/
def Table.currentRowsPadded (t : Table) : List Row :=
  t.currentRows.map (padRow t.currentColumns)

/-- Modelled from the spec: primary-key/uniqueness validation against the
merged post-mutation state (spec §4.1 step 3). -/
def validPK (t : Table) : Bool :=
  match t.pkCol with
  | none => true
  | some pk => decide ((t.currentRowsPadded.map (fun r => r[pk]?)).Nodup)

/-- Modelled from the spec: NOT NULL validation against the merged
post-mutation state (spec §4.1 step 3). -/
def validNotNull (t : Table) : Bool :=
  t.currentRowsPadded.all (fun r =>
    (t.currentColumns.zip r).all (fun cv => cv.1.nullable || decide (cv.2 ≠ .null)))

/-- Constraint validation of one (merged) table. -/
def validateTable (t : Table) : Bool :=
  validPK t && validNotNull t

/-- The tables as they would stand after this transaction's mutations. -/
def mergedTables (cat : Catalog) (tx : Transaction) : List Table :=
  cat.tables.map (applyTable cat.nextSnapshotId cat.clock tx)

/-- Modelled from the spec: commit-time constraint validation over the
merged post-mutation state of every table (spec §4.1 step 3). -/
def validateAll (cat : Catalog) (tx : Transaction) : Bool :=
  (mergedTables cat tx).all validateTable

/-- Modelled from the spec: the atomic publication step of commit — one new
snapshot id is allocated and every touched table's manifest/schema history
and current-snapshot pointer advance to it together (spec §4.1 step 5). -/
def applyTx (cat : Catalog) (tx : Transaction) : Catalog :=
  { tables := cat.tables.map (applyTable cat.nextSnapshotId cat.clock tx),
    snapshots := cat.snapshots ++ [⟨cat.nextSnapshotId, cat.clock⟩],
    nextSnapshotId := cat.nextSnapshotId + 1,
    clock := cat.clock + 1 }

/-- Modelled from the spec: `commit` — stale-view checks, then constraint
validation, then atomic publication; any failure applies nothing
(spec §4.1). -/
def commit (cat : Catalog) (tx : Transaction) : Except CommitError Catalog :=
  match checkConflicts cat tx with
  | some e => .error e
  | none =>
    if validateAll cat tx then .ok (applyTx cat tx) else .error .validation

/-- The catalog a session observes after COMMIT-or-ROLLBACK: the new catalog
on success, the unchanged catalog on failure (spec §4.1 abort, §7). -/
def applyCommit (cat : Catalog) (tx : Transaction) : Catalog :=
  match commit cat tx with
  | .ok c => c
  | .error _ => cat

/-- Modelled from the spec: `abort` discards all staged mutations; the
catalog is untouched (spec §4.1). -/
def abortTx (cat : Catalog) (_tx : Transaction) : Catalog :=
  cat

/-- Modelled from the spec: the resolver's error for a time-travel target
before the table existed (spec §4.4, §7). -/
inductive ResolveError
  | noSnapshot
deriving DecidableEq

/-- The last element of a list whose key is at most `v` — the "greatest
snapshot id at or before the target" selection of the resolver (spec §4.4)
for histories kept in ascending order. -/
def lastLE {α : Type} (key : α → ℕ) (v : ℕ) (l : List α) : Option α :=
  (l.filter (fun a => key a ≤ v)).getLast?

/-- Modelled from the spec: version resolution — the SchemaVersion and
Manifest valid at snapshot `v`: the last manifest with snapshot id ≤ v and
the last schema version valid from ≤ v; targets before the table's creation
fail with `noSnapshot` (spec §4.4). -/
def resolveVersion (t : Table) (v : ℕ) : Except ResolveError (SchemaVersion × Manifest) :=
  match lastLE Manifest.snap v t.manifestHistory,
        lastLE SchemaVersion.validFrom v t.schemaHistory with
  | some m, some sv => .ok (sv, m)
  | _, _ => .error .noSnapshot

/-- Modelled from the spec: `query_at` with a version target — the resolved
schema plus the manifest's rows padded to that schema (spec §4.4, §6). -/
def queryAt (t : Table) (v : ℕ) : Except ResolveError (SchemaVersion × List Row) :=
  (resolveVersion t v).map (fun sm => (sm.1, sm.2.rows.map (padRow sm.1.columns)))

/-- Modelled from the spec: timestamp resolution — the manifest of the
highest snapshot id whose timestamp is at or before `ts`, with the schema
valid at that snapshot; timestamps before the table's creation snapshot
fail with `noSnapshot` (spec §4.4). -/
def resolveTimestamp (t : Table) (ts : ℕ) : Except ResolveError (SchemaVersion × Manifest) :=
  match lastLE Manifest.time ts t.manifestHistory with
  | some m =>
    match lastLE SchemaVersion.validFrom m.snap t.schemaHistory with
    | some sv => .ok (sv, m)
    | none => .error .noSnapshot
  | none => .error .noSnapshot

/-- Modelled from the spec: out-of-band GC — snapshots and manifests outside
the retention window (ids below the cutoff) are reclaimed; the allocation
counter is untouched (spec §4.5). -/
def gc (cat : Catalog) (cutoff : ℕ) : Catalog :=
  { cat with
    snapshots := cat.snapshots.filter (fun s => cutoff ≤ s.id),
    tables := cat.tables.map (fun t =>
      { t with manifestHistory := t.manifestHistory.filter (fun m => cutoff ≤ m.snap) }) }

/-- Modelled from the spec: one catalog-level operation — a commit attempt
or a GC pass (spec §4.1, §4.5). -/
inductive CatOp
  | commitOp (tx : Transaction)
  | gcOp (cutoff : ℕ)

/-- One operation step: the next catalog and the snapshot id allocated by a
successful commit, if any. -/
def stepOp (cat : Catalog) : CatOp → Catalog × Option ℕ
  | .commitOp tx =>
    match commit cat tx with
    | .ok c => (c, some cat.nextSnapshotId)
    | .error _ => (cat, none)
  | .gcOp k => (gc cat k, none)

/-- Run a sequence of operations, collecting the allocated snapshot ids in
order. -/
def runOps (cat : Catalog) : List CatOp → Catalog × List ℕ
  | [] => (cat, [])
  | op :: ops =>
    let s := stepOp cat op
    let r := runOps s.1 ops
    (r.1, s.2.toList ++ r.2)

/-! ### The Manifest Engine's inlining buffer (spec §4.2) -/

/-- Modelled from the spec: one staged write for the inlining buffer — its
rows and its size against the threshold (spec §4.2). -/
structure WriteOp where
  rows : List Row
  size : ℕ
deriving DecidableEq

/-- Modelled from the spec: the running inlining state of one
transaction-table pair — buffered inline rows, their running size, and the
count of physical files allocated so far (spec §4.2). -/
structure BufState where
  pending : List Row
  pendingSize : ℕ
  filesAllocated : ℕ
deriving DecidableEq

/-- The empty buffer. -/
def initBuf : BufState :=
  ⟨[], 0, 0⟩

/-- Modelled from the spec: staging one write — while the running total
stays below the threshold the write is buffered as inline rows; when it
crosses, the buffer and the write are flushed into exactly one physical
file and the buffer empties (spec §4.2, §8 inlining threshold). -/
def stageWrite (τ : ℕ) (st : BufState) (w : WriteOp) : BufState :=
  if st.pendingSize + w.size < τ then
    ⟨st.pending ++ w.rows, st.pendingSize + w.size, st.filesAllocated⟩
  else
    ⟨[], 0, st.filesAllocated + 1⟩

/-- Stage a sequence of writes. -/
def stageAll (τ : ℕ) (st : BufState) (ws : List WriteOp) : BufState :=
  ws.foldl (stageWrite τ) st

/-- Modelled from the spec: the explicit (or commit-time) flush — a
nonempty buffer becomes exactly one physical file (spec §4.2, §8 scenario
of 100 small inserts). -/
def flushBuffer (st : BufState) : BufState :=
  if st.pending.isEmpty then st else ⟨[], 0, st.filesAllocated + 1⟩

/-- Every running total along the writes stays strictly below the
threshold, starting from accumulated size `acc`. -/
def allBelow (τ : ℕ) : ℕ → List WriteOp → Bool
  | _, [] => true
  | acc, w :: ws => decide (acc + w.size < τ) && allBelow τ (acc + w.size) ws

/-- The rows of a write sequence, in order. -/
def flatRows (ws : List WriteOp) : List Row :=
  (ws.map WriteOp.rows).join

/-- The total size of a write sequence. -/
def sizeSum (ws : List WriteOp) : ℕ :=
  (ws.map WriteOp.size).sum

/-- One single-row small write (demo 4, `demonstrate_inlining`). -/
def smallWrite : WriteOp :=
  ⟨[[.int 0, .str "item", .int 0]], 1⟩

/-- The hundred single-row inserts of the inlining demo. -/
def hundredWrites : List WriteOp :=
  List.replicate 100 smallWrite

/-- A one-column schema for the time-travel fixture. -/
def travelCols : List Column :=
  [⟨"id", true, none⟩]

/-- The time-travel fixture's first manifest (snapshot 1 at time 10). -/
def travelM0 : Manifest :=
  ⟨1, 10, [.inline [[.int 1]]]⟩

/-- The time-travel fixture's second manifest (snapshot 2 at time 20). -/
def travelM1 : Manifest :=
  ⟨2, 20, [.inline [[.int 1], [.int 2]]]⟩

/-- The time-travel fixture's schema version. -/
def travelSV : SchemaVersion :=
  ⟨0, travelCols, 1⟩

/-- A table with two timestamped snapshots for the resolver witness. -/
def travelT : Table :=
  ⟨"t", none, [travelSV], [travelM0, travelM1], 2⟩

/-- Modelled from the spec: the session transaction issuing an unqualified
DELETE against one table, begun at the table's current view (demo 2,
`simulate_accidental_deletion`). -/
def deleteTx (t : Table) : Transaction :=
  { reads := [⟨t.name, t.currentSnap, t.currentVid⟩],
    muts := [(t.name, .deleteAll)] }

/-- Modelled from the spec: the recovery transaction inserting a selected
row set into one table, begun at the table's current view (demo 2,
`recover_deleted_data`). -/
def restoreTx (t : Table) (rows : List Row) : Transaction :=
  { reads := [⟨t.name, t.currentSnap, t.currentVid⟩],
    muts := [(t.name, .insertRows rows)] }

/-- The `customers` table's columns (demo 2). -/
def custCols : List Column :=
  [⟨"id", true, none⟩, ⟨"name", true, none⟩]

/-- The `customers` rows before the accident (demo 2). -/
def custRows : List Row :=
  [[.int 1, .str "Alice Johnson"], [.int 2, .str "Bob Smith"]]

/-- The `customers` schema version (demo 2). -/
def custSV : SchemaVersion :=
  ⟨0, custCols, 0⟩

/-- The `customers` table before the accident (demo 2). -/
def custT : Table :=
  ⟨"customers", none, [custSV], [⟨0, 0, [.inline custRows]⟩], 0⟩

/-- The demo-2 catalog before the accident. -/
def custCat : Catalog :=
  ⟨[custT], [⟨0, 0⟩], 1, 1⟩

/-- The `customers` table right after the unqualified DELETE commits. -/
def custT1 : Table :=
  applyTable custCat.nextSnapshotId custCat.clock (deleteTx custT) custT

/-- The demo-2 catalog right after the unqualified DELETE commits. -/
def custCat1 : Catalog :=
  applyTx custCat (deleteTx custT)

/-- The demo-2 catalog after the time-travel recovery insert commits. -/
def custCat2 : Catalog :=
  applyTx custCat1 (restoreTx custT1 custRows)


/-! ### Concrete fixtures for witnesses (the demo scenarios) -/

/-- The `orders` table's columns (demo 1): primary-key order id, product id,
quantity, customer name. -/
def ordersCols : List Column :=
  [⟨"order_id", false, none⟩, ⟨"product_id", true, none⟩,
   ⟨"quantity", true, none⟩, ⟨"customer_name", true, none⟩]

/-- The `inventory` table's columns (demo 1). -/
def invCols : List Column :=
  [⟨"product_id", false, none⟩, ⟨"product_name", true, none⟩,
   ⟨"quantity", true, none⟩, ⟨"price", true, none⟩]

/-- The `orders` table after Alice's committed order (demo 1). -/
def ordersT : Table :=
  ⟨"orders", some 0, [⟨0, ordersCols, 0⟩],
   [⟨0, 0, [.inline [[.int 1, .int 1, .int 5, .str "Alice"]]]⟩], 0⟩

/-- The `inventory` table after Alice's committed order (demo 1). -/
def inventoryT : Table :=
  ⟨"inventory", some 0, [⟨0, invCols, 0⟩],
   [⟨0, 0, [.inline
     [[.int 1, .str "DuckDB T-Shirt", .int 95, .int 2999],
      [.int 2, .str "DuckDB Mug", .int 50, .int 1499],
      [.int 3, .str "DuckDB Sticker Pack", .int 200, .int 499],
      [.int 4, .str "DuckDB Hoodie", .int 25, .int 5999]]]⟩], 0⟩

/-- The demo-1 catalog before Bob's failing transaction. -/
def demoCat : Catalog :=
  ⟨[inventoryT, ordersT], [⟨0, 0⟩], 1, 1⟩

/-- Bob's failing transaction (demo 1, `demo_failed_transaction`): insert
order id 2, update the mug inventory, then insert a duplicate order id 2. -/
def bobTx : Transaction :=
  { reads := [⟨"orders", 0, 1⟩, ⟨"inventory", 0, 1⟩],
    muts := [("orders", .insertRows [[.int 2, .int 2, .int 10, .str "Bob"]]),
             ("inventory", .update 0 (.int 2) 2 (.int 40)),
             ("orders", .insertRows [[.int 2, .int 3, .int 5, .str "Bob"]])] }

/-- A valid variant of Bob's transaction (no duplicate key): it commits. -/
def mugTx : Transaction :=
  { reads := [⟨"orders", 0, 1⟩, ⟨"inventory", 0, 1⟩],
    muts := [("orders", .insertRows [[.int 2, .int 2, .int 10, .str "Bob"]]),
             ("inventory", .update 0 (.int 2) 2 (.int 40))] }

/-- A transaction touching nothing (demo 2 takes snapshots this way). -/
def emptyTx : Transaction :=
  ⟨[], []⟩

/-- An operation sequence with a GC pass between two commits. -/
def opsW : List CatOp :=
  [.commitOp mugTx, .gcOp 1, .commitOp emptyTx]

/-- The `events` table's columns before schema evolution (demo 3). -/
def eventsCols : List Column :=
  [⟨"id", false, none⟩, ⟨"event_type", false, none⟩, ⟨"event_data", true, none⟩]

/-- The `events` table with its initial rows (demo 3). -/
def eventsT : Table :=
  ⟨"events", some 0, [⟨0, eventsCols, 0⟩],
   [⟨0, 0, [.inline [[.int 1, .str "user_login", .str "d1"],
                     [.int 2, .str "page_view", .str "d2"]]]⟩], 0⟩

/-- The demo-3 catalog holding `events`. -/
def eventsCat : Catalog :=
  ⟨[eventsT], [⟨0, 0⟩], 1, 1⟩

/-- The `priority` column with default 5 (demo 3, `add_column_with_default`). -/
def prioCol : Column :=
  ⟨"priority", true, some (.int 5)⟩

/-- The ALTER TABLE transaction adding `priority` (demo 3). -/
def addPrioTx : Transaction :=
  { reads := [⟨"events", 0, 1⟩], muts := [("events", .addColumn prioCol)] }

/-- A background writer's transaction staged against the pre-DDL schema
version (demo 3, `background_writer`). -/
def staleTx : Transaction :=
  { reads := [⟨"events", 0, 1⟩],
    muts := [("events", .insertRows [[.int 3, .str "user_logout", .str "d3"]])] }


end DuckLake

namespace DuckUtils

/-- Filtering away an element that is not in the list changes nothing. -/
theorem filter_ne_of_not_mem {α : Type} [DecidableEq α] (l : List α) (a : α) (h : a ∉ l) :
    l.filter (fun q => q ≠ a) = l := by
  refine List.filter_eq_self.mpr (fun b hb => ?_)
  have hba : b ≠ a := fun e => h (e ▸ hb)
  simp [hba]

/-- Reassociating the space between number and unit in a rendered size. -/
theorem append_space_unit (s u v : String) (h : " " ++ u = v) : s ++ " " ++ u = s ++ v := by
  rw [String.append_assoc, h]

/-- C9: `format_size` picks unit "B" exactly on numeric inputs below 1024,
"KB" on inputs in [1024, 1024^2), "MB" on [1024^2, 1024^3), "GB" on
[1024^3, 1024^4), and "TB" from 1024^4 on, and renders the input divided by
the corresponding power of 1024 to two decimal places; being a total
function, it raises on no input. -/
theorem format_size_units (b : ℚ) :
    (b < 1024 → format_size b = renderF2 b ++ " B") ∧
    (1024 ≤ b → b < 1024 ^ 2 → format_size b = renderF2 (b / 1024) ++ " KB") ∧
    (1024 ^ 2 ≤ b → b < 1024 ^ 3 → format_size b = renderF2 (b / 1024 ^ 2) ++ " MB") ∧
    (1024 ^ 3 ≤ b → b < 1024 ^ 4 → format_size b = renderF2 (b / 1024 ^ 3) ++ " GB") ∧
    (1024 ^ 4 ≤ b → format_size b = renderF2 (b / 1024 ^ 4) ++ " TB") := by
  have h0 : (0:ℚ) < 1024 := by norm_num
  have e2 : (1024:ℚ) ^ 2 = 1024 * 1024 := by norm_num
  have e3 : (1024:ℚ) ^ 3 = 1024 * (1024 * 1024) := by ring
  have e4 : (1024:ℚ) ^ 4 = 1024 * (1024 * (1024 * 1024)) := by ring
  refine ⟨fun h => ?_, fun h1 h2 => ?_, fun h1 h2 => ?_, fun h1 h2 => ?_, fun h1 => ?_⟩
  · have hm : format_size b = renderF2 b ++ " " ++ "B" := by
      simp [format_size, formatSizeAux, h]
    rw [hm]
    exact append_space_unit _ _ _ rfl
  · have ha : ¬ b < 1024 := not_lt.2 h1
    have hb : b / 1024 < 1024 := by
      rw [div_lt_iff₀ h0]
      calc b < 1024 ^ 2 := h2
        _ = 1024 * 1024 := e2
    have hm : format_size b = renderF2 (b / 1024) ++ " " ++ "KB" := by
      simp [format_size, formatSizeAux, ha, hb]
    rw [hm]
    exact append_space_unit _ _ _ rfl
  · have ha : ¬ b < 1024 := not_lt.2 (le_trans (by norm_num) h1)
    have hb : ¬ b / 1024 < 1024 := by
      rw [not_lt, le_div_iff₀ h0, ← e2]
      exact h1
    have hc : b / 1024 / 1024 < 1024 := by
      rw [div_div, div_lt_iff₀ (by norm_num : (0:ℚ) < 1024 * 1024)]
      calc b < 1024 ^ 3 := h2
        _ = 1024 * (1024 * 1024) := e3
    have hm : format_size b = renderF2 (b / 1024 / 1024) ++ " " ++ "MB" := by
      simp [format_size, formatSizeAux, ha, hb, hc]
    rw [hm, div_div, ← e2]
    exact append_space_unit _ _ _ rfl
  · have ha : ¬ b < 1024 := not_lt.2 (le_trans (by norm_num) h1)
    have hb : ¬ b / 1024 < 1024 := by
      rw [not_lt, le_div_iff₀ h0]
      exact le_trans (by norm_num) h1
    have hc : ¬ b / 1024 / 1024 < 1024 := by
      rw [not_lt, div_div, le_div_iff₀ (by norm_num : (0:ℚ) < 1024 * 1024)]
      exact le_trans (by norm_num) h1
    have hd : b / 1024 / 1024 / 1024 < 1024 := by
      rw [div_div, div_div, div_lt_iff₀ (by norm_num : (0:ℚ) < 1024 * (1024 * 1024))]
      calc b < 1024 ^ 4 := h2
        _ = 1024 * (1024 * (1024 * 1024)) := e4
    have hm : format_size b = renderF2 (b / 1024 / 1024 / 1024) ++ " " ++ "GB" := by
      simp [format_size, formatSizeAux, ha, hb, hc, hd]
    rw [hm, div_div, div_div, ← e3]
    exact append_space_unit _ _ _ rfl
  · have ha : ¬ b < 1024 := not_lt.2 (le_trans (by norm_num) h1)
    have hb : ¬ b / 1024 < 1024 := by
      rw [not_lt, le_div_iff₀ h0]
      exact le_trans (by norm_num) h1
    have hc : ¬ b / 1024 / 1024 < 1024 := by
      rw [not_lt, div_div, le_div_iff₀ (by norm_num : (0:ℚ) < 1024 * 1024)]
      exact le_trans (by norm_num) h1
    have hd : ¬ b / 1024 / 1024 / 1024 < 1024 := by
      rw [not_lt, div_div, div_div,
        le_div_iff₀ (by norm_num : (0:ℚ) < 1024 * (1024 * 1024)), ← e4]
      exact h1
    have hm : format_size b = renderF2 (b / 1024 / 1024 / 1024 / 1024) ++ " TB" := by
      simp [format_size, formatSizeAux, ha, hb, hc, hd]
    rw [hm, div_div, div_div, div_div, ← e4]

/-- Witness for `format_size_units`: at input 3200 the hypotheses of the KB
branch are discharged concretely and the rendering evaluates to "3.12 KB"
(the same string CPython produces: the value 3.125 is an exact binary float
and the hundredths tie rounds to even). -/
theorem format_size_units_w : format_size 3200 = "3.12 KB" := by
  have h := (format_size_units 3200).2.1 (by norm_num) (by norm_num)
  rw [h]
  have hneg : ¬ ((3200:ℚ)/1024 < 0) := by norm_num
  have hfl : ⌊(3200:ℚ)/1024 * 100⌋ = (312:ℤ) := by
    rw [Int.floor_eq_iff]
    constructor <;> norm_num
  have hrhe : roundHalfEven ((3200:ℚ)/1024 * 100) = 312 := by
    unfold roundHalfEven
    rw [hfl]
    have hr1 : ¬ ((3200:ℚ)/1024 * 100 - ((312:ℤ):ℚ) < 1/2) := by push_cast; norm_num
    have hr2 : ¬ ((1:ℚ)/2 < (3200:ℚ)/1024 * 100 - ((312:ℤ):ℚ)) := by push_cast; norm_num
    have hr3 : (312:ℤ) % 2 = 0 := by decide
    rw [if_neg hr1, if_neg hr2, if_pos hr3]
  have hnn : renderF2nn ((3200:ℚ)/1024) = "3.12" := by
    unfold renderF2nn
    rw [hrhe]
    decide
  have hr : renderF2 ((3200:ℚ)/1024) = "3.12" := by
    unfold renderF2
    rw [if_neg hneg, hnn]
  rw [hr]
  decide

/-- C10: on a path that does not start with the "ducklake:" tag,
`cleanup_ducklake` behaves identically with and without the tag prepended:
it removes the regular file at the path when present and the ".files"
directory when present, touches no other filesystem entry, and succeeds
(returns `some`) also when either target is absent. -/
theorem cleanup_ducklake_tag_invariant (fs : FS) (p : Path)
    (hpre : p.take 9 ≠ ducklakeTag)
    (hnd : p ∉ fs.dirs)
    (hnf : p ++ dotFiles ∉ fs.files) :
    cleanup_ducklake fs (ducklakeTag ++ p) = cleanup_ducklake fs p ∧
    cleanup_ducklake fs p =
      some ⟨fs.files.filter (fun q => q ≠ p),
            fs.dirs.filter (fun q => q ≠ p ++ dotFiles)⟩ := by
  have h9 : ducklakeTag.length = 9 := by decide
  have hstrip : stripTag (ducklakeTag ++ p) = p := by
    unfold stripTag
    rw [if_pos]
    · rw [← h9, List.drop_left]
    · rw [← h9, List.take_left]
  have hstrip2 : stripTag p = p := by
    unfold stripTag
    rw [if_neg hpre]
  refine ⟨by unfold cleanup_ducklake; rw [hstrip, hstrip2], ?_⟩
  unfold cleanup_ducklake
  rw [hstrip2]
  unfold cleanupBase
  by_cases hf : p ∈ fs.files
  · rw [if_pos (show pathExists fs p from Or.inl hf)]
    unfold osRemove
    rw [if_neg hnd, Option.some_bind]
    have hnf1 : p ++ dotFiles ∉ fs.files.filter (fun q => q ≠ p) :=
      fun hmem => hnf (List.mem_of_mem_filter hmem)
    by_cases hd2 : p ++ dotFiles ∈ fs.dirs
    · rw [if_pos (show pathExists ⟨fs.files.filter (fun q => q ≠ p), fs.dirs⟩ (p ++ dotFiles)
        from Or.inr hd2)]
      unfold rmtree
      rw [if_neg hnf1]
    · rw [if_neg (show ¬ pathExists ⟨fs.files.filter (fun q => q ≠ p), fs.dirs⟩ (p ++ dotFiles)
        from fun hpe => Or.elim hpe (fun hx => hnf1 hx) (fun hx => hd2 hx))]
      rw [filter_ne_of_not_mem fs.dirs (p ++ dotFiles) hd2]
  · rw [if_neg (show ¬ pathExists fs p from
      fun hpe => Or.elim hpe (fun hx => hf hx) (fun hx => hnd hx)), Option.some_bind]
    by_cases hd2 : p ++ dotFiles ∈ fs.dirs
    · rw [if_pos (show pathExists fs _ from Or.inr hd2)]
      unfold rmtree
      rw [if_neg hnf, filter_ne_of_not_mem fs.files p hf]
    · rw [if_neg (show ¬ pathExists fs _ from
        fun hpe => Or.elim hpe (fun hx => hnf hx) (fun hx => hd2 hx))]
      rw [filter_ne_of_not_mem fs.files p hf,
        filter_ne_of_not_mem fs.dirs (p ++ dotFiles) hd2]

/-- Witness for `cleanup_ducklake_tag_invariant` at the concrete path
"cat.db" on `fsW`: hypotheses are discharged by `decide` and the conclusion
is the instantiated theorem. -/
theorem cleanup_ducklake_tag_invariant_w :
    cleanup_ducklake fsW (ducklakeTag ++ "cat.db".toList) =
      cleanup_ducklake fsW "cat.db".toList ∧
    cleanup_ducklake fsW "cat.db".toList =
      some ⟨fsW.files.filter (fun q => q ≠ "cat.db".toList),
            fsW.dirs.filter (fun q => q ≠ "cat.db".toList ++ dotFiles)⟩ :=
  cleanup_ducklake_tag_invariant fsW "cat.db".toList (by decide) (by decide) (by decide)

end DuckUtils

namespace DuckLake

/-- C1: when a staged mutation fails constraint validation (e.g. a duplicate
primary key in the merged state), commit fails with the validation error and
the rolled-back session state is the unchanged pre-transaction catalog — no
mutation is partially applied to any table. -/
theorem commit_validation_atomic (cat : Catalog) (tx : Transaction)
    (hnc : checkConflicts cat tx = none)
    (hbad : ∃ t ∈ mergedTables cat tx, validateTable t = false) :
    commit cat tx = .error .validation ∧ applyCommit cat tx = cat := by
  have hva : validateAll cat tx = false := by
    obtain ⟨t, ht, hv⟩ := hbad
    unfold validateAll
    rw [List.all_eq_false]
    exact ⟨t, ht, by simp [hv]⟩
  have hc : commit cat tx = .error .validation := by
    simp [commit, hnc, hva]
  exact ⟨hc, by unfold applyCommit; rw [hc]⟩

/-- Witness for `commit_validation_atomic`: Bob's transaction of demo 1 —
insert order id 2, update inventory, insert a duplicate order id 2 — fails
commit with the validation error and leaves the demo catalog unchanged. -/
theorem commit_validation_atomic_w :
    commit demoCat bobTx = .error .validation ∧ applyCommit demoCat bobTx = demoCat :=
  commit_validation_atomic demoCat bobTx (by decide) (by decide)

end DuckLake

namespace DuckLake

/-- A successful commit publishes exactly `applyTx`. -/
theorem commit_ok_eq (cat : Catalog) (tx : Transaction) (c : Catalog)
    (hc : commit cat tx = .ok c) : c = applyTx cat tx := by
  unfold commit at hc
  cases hcc : checkConflicts cat tx with
  | some e => rw [hcc] at hc; cases hc
  | none =>
    rw [hcc] at hc
    by_cases hv : validateAll cat tx
    · rw [if_pos hv] at hc
      exact (Except.ok.inj hc).symm
    · rw [if_neg hv] at hc
      cases hc

/-- `applyTable` never changes the table's name. -/
theorem applyTable_name (n time : ℕ) (tx : Transaction) (t : Table) :
    (applyTable n time tx t).name = t.name := by
  unfold applyTable
  by_cases hms : (mutsFor tx t.name).isEmpty
  · rw [if_pos hms]
  · rw [if_neg hms]

/-- Looking a table up after `applyTx` finds the `applyTable` image of the
table found before. -/
theorem findTable_applyTx (cat : Catalog) (tx : Transaction) (nm : String) :
    (applyTx cat tx).findTable nm =
      (cat.findTable nm).map (applyTable cat.nextSnapshotId cat.clock tx) := by
  unfold applyTx Catalog.findTable
  dsimp only
  induction cat.tables with
  | nil => rfl
  | cons t ts ih =>
    by_cases h : t.name = nm
    · rw [List.map_cons,
        List.find?_cons_of_pos _ (by simp [applyTable_name, h]),
        List.find?_cons_of_pos _ (by simp [h])]
      rfl
    · rw [List.map_cons,
        List.find?_cons_of_neg _ (by simp [applyTable_name, h]),
        List.find?_cons_of_neg _ (by simp [h]), ih]

/-- Appending a history element with key above the target leaves the
`lastLE` selection unchanged. -/
theorem lastLE_append_gt {α : Type} (key : α → ℕ) (v : ℕ) (l : List α) (a : α)
    (h : v < key a) : lastLE key v (l ++ [a]) = lastLE key v l := by
  unfold lastLE
  rw [List.filter_append]
  have hf : decide (key a ≤ v) = false := decide_eq_false (Nat.not_le.2 h)
  simp [List.filter_cons, hf]

/-- The element selected by `lastLE` belongs to the history and satisfies
the bound. -/
theorem lastLE_mem {α : Type} (key : α → ℕ) (v : ℕ) (l : List α) (a : α)
    (h : lastLE key v l = some a) : a ∈ l ∧ key a ≤ v := by
  unfold lastLE at h
  have hm : a ∈ l.filter (fun x => key x ≤ v) := List.mem_of_mem_getLast? h
  refine ⟨List.mem_of_mem_filter hm, ?_⟩
  have := List.of_mem_filter hm
  exact of_decide_eq_true this

/-- Version resolution at a snapshot below the newly allocated id is
untouched by the commit-time table transformation: later commits never
change what a reader resolved at an earlier snapshot observes. -/
theorem resolveVersion_applyTable (t : Table) (n time N : ℕ) (tx : Transaction)
    (hN : N < n) :
    resolveVersion (applyTable n time tx t) N = resolveVersion t N := by
  unfold applyTable
  by_cases hms : (mutsFor tx t.name).isEmpty
  · rw [if_pos hms]
  · rw [if_neg hms]
    unfold resolveVersion
    dsimp only
    rw [lastLE_append_gt Manifest.snap N _ _ hN]
    by_cases hddl : hasDDL (mutsFor tx t.name)
    · rw [if_pos hddl, lastLE_append_gt SchemaVersion.validFrom N _ _ hN]
    · rw [if_neg hddl]

/-- `queryAt` at a snapshot below the newly allocated id is untouched by the
commit-time table transformation. -/
theorem queryAt_applyTable (t : Table) (n time N : ℕ) (tx : Transaction)
    (hN : N < n) :
    queryAt (applyTable n time tx t) N = queryAt t N := by
  unfold queryAt
  rw [resolveVersion_applyTable t n time N tx hN]

/-- C2: snapshot immutability — for a committed snapshot `N` and any table,
the schema-and-manifest pair (and hence the padded row set) resolved at
version `N` is unchanged by any later successful commit. -/
theorem snapshot_immutability (cat : Catalog) (tx : Transaction) (cat' : Catalog)
    (nm : String) (N : ℕ)
    (hc : commit cat tx = .ok cat')
    (hN : N < cat.nextSnapshotId) :
    ((cat'.findTable nm).map (fun t => resolveVersion t N)) =
      ((cat.findTable nm).map (fun t => resolveVersion t N)) ∧
    ((cat'.findTable nm).map (fun t => queryAt t N)) =
      ((cat.findTable nm).map (fun t => queryAt t N)) := by
  have hcat : cat' = applyTx cat tx := commit_ok_eq cat tx cat' hc
  subst hcat
  rw [findTable_applyTx]
  cases hft : cat.findTable nm with
  | none => exact ⟨rfl, rfl⟩
  | some t =>
    constructor
    · simp only [Option.map_some']
      rw [resolveVersion_applyTable t _ _ N tx hN]
    · simp only [Option.map_some']
      rw [queryAt_applyTable t _ _ N tx hN]

/-- Witness for `snapshot_immutability`: committing `mugTx` on the demo
catalog leaves what a reader resolves for `orders` at snapshot 0 unchanged. -/
theorem snapshot_immutability_w :
    (((applyTx demoCat mugTx).findTable "orders").map (fun t => resolveVersion t 0) =
      ((demoCat.findTable "orders").map (fun t => resolveVersion t 0))) ∧
    (((applyTx demoCat mugTx).findTable "orders").map (fun t => queryAt t 0) =
      ((demoCat.findTable "orders").map (fun t => queryAt t 0))) :=
  snapshot_immutability demoCat mugTx (applyTx demoCat mugTx) "orders" 0
    (by decide) (by decide)

end DuckLake

namespace DuckLake

/-- A successful commit advances the allocation counter by one. -/
theorem applyTx_next (cat : Catalog) (tx : Transaction) :
    (applyTx cat tx).nextSnapshotId = cat.nextSnapshotId + 1 := rfl

/-- GC does not touch the allocation counter. -/
theorem gc_next (cat : Catalog) (k : ℕ) :
    (gc cat k).nextSnapshotId = cat.nextSnapshotId := rfl

/-- A committing step yields the committed catalog and allocates the current
counter value. -/
theorem stepOp_commit_ok (cat : Catalog) (tx : Transaction) (c : Catalog)
    (hc : commit cat tx = .ok c) :
    stepOp cat (.commitOp tx) = (c, some cat.nextSnapshotId) := by
  unfold stepOp
  dsimp only
  rw [hc]

/-- A failing commit steps nowhere and allocates nothing. -/
theorem stepOp_commit_err (cat : Catalog) (tx : Transaction) (e : CommitError)
    (hc : commit cat tx = .error e) :
    stepOp cat (.commitOp tx) = (cat, none) := by
  unfold stepOp
  dsimp only
  rw [hc]

/-- A GC step reclaims and allocates nothing. -/
theorem stepOp_gc (cat : Catalog) (k : ℕ) :
    stepOp cat (.gcOp k) = (gc cat k, none) := rfl

/-- Unfolding one step of `runOps`. -/
theorem runOps_cons (cat : Catalog) (op : CatOp) (ops : List CatOp) :
    runOps cat (op :: ops) =
      ((runOps (stepOp cat op).1 ops).1,
        (stepOp cat op).2.toList ++ (runOps (stepOp cat op).1 ops).2) := rfl

/-- Core of the monotonicity argument: every id allocated along a run is at
least the starting counter, and the allocated ids are strictly increasing. -/
theorem runOps_alloc_lb (ops : List CatOp) : ∀ cat : Catalog,
    (∀ a ∈ (runOps cat ops).2, cat.nextSnapshotId ≤ a) ∧
    List.Chain' (· < ·) (runOps cat ops).2 := by
  induction ops with
  | nil =>
    intro cat
    exact ⟨fun a ha => absurd ha (List.not_mem_nil a), List.chain'_nil⟩
  | cons op ops ih =>
    intro cat
    rw [runOps_cons]
    cases op with
    | commitOp tx =>
      cases hc : commit cat tx with
      | ok c =>
        rw [stepOp_commit_ok cat tx c hc]
        dsimp only
        simp only [Option.toList_some, List.singleton_append]
        have hnext : c.nextSnapshotId = cat.nextSnapshotId + 1 := by
          rw [commit_ok_eq cat tx c hc]
          rfl
        obtain ⟨ihlb, ihch⟩ := ih c
        constructor
        · intro a ha
          rcases List.mem_cons.1 ha with rfl | hmem
          · exact le_rfl
          · have := ihlb a hmem
            rw [hnext] at this
            omega
        · rw [List.chain'_cons']
          refine ⟨fun b hb => ?_, ihch⟩
          have := ihlb b (List.mem_of_mem_head? hb)
          rw [hnext] at this
          omega
      | error e =>
        rw [stepOp_commit_err cat tx e hc]
        exact ih cat
    | gcOp k =>
      rw [stepOp_gc]
      exact ih (gc cat k)

/-- C6: across the whole catalog, the snapshot ids allocated by successive
commits are strictly increasing, and no id is ever reused: every allocated
id also strictly exceeds every id present before the run — even those GC
passes inside the run have reclaimed. -/
theorem monotonic_snapshot_ids (cat : Catalog) (ops : List CatOp)
    (hwf : ∀ s ∈ cat.snapshots, s.id < cat.nextSnapshotId) :
    List.Chain' (· < ·) (runOps cat ops).2 ∧
    ∀ a ∈ (runOps cat ops).2, ∀ s ∈ cat.snapshots, s.id < a := by
  obtain ⟨hlb, hch⟩ := runOps_alloc_lb ops cat
  exact ⟨hch, fun a ha s hs => lt_of_lt_of_le (hwf s hs) (hlb a ha)⟩

/-- Witness for `monotonic_snapshot_ids`: commit, GC pass, commit on the
demo catalog allocates exactly the ids 1 then 2, strictly increasing. -/
theorem monotonic_snapshot_ids_w :
    (runOps demoCat opsW).2 = [1, 2] ∧
    List.Chain' (· < ·) (runOps demoCat opsW).2 :=
  ⟨by decide, (monotonic_snapshot_ids demoCat opsW (by decide)).1⟩

/-- Staged schema changes make the staged-mutation list nonempty. -/
theorem hasDDL_ne_nil (ms : List Mutation) (h : hasDDL ms = true) :
    ms.isEmpty = false := by
  cases ms with
  | nil => cases h
  | cons m ms => rfl

/-- C8: a transaction whose recorded read view carries a schema version that
a committed DDL transaction has since changed fails commit with the
distinguishable schema-conflict error, and its staged mutations are never
applied. -/
theorem stale_schema_conflict (cat0 : Catalog) (nm : String) (t0 : Table)
    (tx2 tx1 : Transaction) (cat1 : Catalog)
    (ht0 : cat0.findTable nm = some t0)
    (hsnap : t0.currentSnap < cat0.nextSnapshotId)
    (hddl : hasDDL (mutsFor tx2 nm) = true)
    (hc2 : commit cat0 tx2 = .ok cat1)
    (hr : tx1.reads = [⟨nm, t0.currentSnap, t0.currentVid⟩]) :
    commit cat1 tx1 = .error .schemaConflict ∧ applyCommit cat1 tx1 = cat1 := by
  have ht0f : List.find? (fun t => decide (t.name = nm)) cat0.tables = some t0 := ht0
  have hname : t0.name = nm := by
    have hp := List.find?_some ht0f
    simpa using hp
  have hcat : cat1 = applyTx cat0 tx2 := commit_ok_eq _ _ _ hc2
  have hmne : (mutsFor tx2 t0.name).isEmpty = false := by
    rw [hname]
    exact hasDDL_ne_nil _ hddl
  have hft : cat1.findTable nm =
      some (applyTable cat0.nextSnapshotId cat0.clock tx2 t0) := by
    rw [hcat, findTable_applyTx, ht0]
    rfl
  have ht1snap : (applyTable cat0.nextSnapshotId cat0.clock tx2 t0).currentSnap =
      cat0.nextSnapshotId := by
    simp only [applyTable, hmne, Bool.false_eq_true, if_false]
  have ht1vid : (applyTable cat0.nextSnapshotId cat0.clock tx2 t0).currentVid =
      t0.currentVid + 1 := by
    unfold Table.currentVid
    simp only [applyTable, hmne, Bool.false_eq_true, if_false]
    rw [hname, if_pos hddl, List.length_append, List.length_cons, List.length_nil]
  have hcr : checkRead cat1 ⟨nm, t0.currentSnap, t0.currentVid⟩ =
      some .schemaConflict := by
    unfold checkRead
    rw [hft]
    dsimp only
    rw [ht1snap, ht1vid, if_neg (Nat.ne_of_gt hsnap), if_pos (Nat.succ_ne_self _)]
  have hcc : checkConflicts cat1 tx1 = some .schemaConflict := by
    unfold checkConflicts
    rw [hr]
    simp [hcr]
  have hcm : commit cat1 tx1 = .error .schemaConflict := by
    simp [commit, hcc]
  exact ⟨hcm, by unfold applyCommit; rw [hcm]⟩

/-- Witness for `stale_schema_conflict`: after the ALTER TABLE transaction
of demo 3 commits, the background writer's stale insert fails commit with
the schema-conflict error and changes nothing. -/
theorem stale_schema_conflict_w :
    commit (applyTx eventsCat addPrioTx) staleTx = .error .schemaConflict ∧
    applyCommit (applyTx eventsCat addPrioTx) staleTx = applyTx eventsCat addPrioTx :=
  stale_schema_conflict eventsCat "events" eventsT addPrioTx staleTx
    (applyTx eventsCat addPrioTx)
    (by decide) (by decide) (by decide) (by decide) (by decide)

end DuckLake

namespace DuckLake

/-- Staging a sequence of writes whose running totals all stay below the
threshold buffers everything inline and allocates no file. -/
theorem stageAll_below (τ : ℕ) (ws : List WriteOp) : ∀ st : BufState,
    allBelow τ st.pendingSize ws = true →
    stageAll τ st ws =
      ⟨st.pending ++ flatRows ws, st.pendingSize + sizeSum ws, st.filesAllocated⟩ := by
  induction ws with
  | nil =>
    intro st _
    simp [stageAll, flatRows, sizeSum]
  | cons w ws ih =>
    intro st h
    unfold allBelow at h
    obtain ⟨h1, h2⟩ := (Bool.and_eq_true _ _).mp h
    have h1' : st.pendingSize + w.size < τ := of_decide_eq_true h1
    have hsw : stageWrite τ st w =
        ⟨st.pending ++ w.rows, st.pendingSize + w.size, st.filesAllocated⟩ := by
      unfold stageWrite
      rw [if_pos h1']
    have hstep : stageAll τ st (w :: ws) = stageAll τ (stageWrite τ st w) ws := rfl
    rw [hstep, hsw, ih _ h2]
    simp [flatRows, sizeSum, Nat.add_assoc]

/-- C5: while every running total stays below the inlining threshold no
physical file is allocated and all rows sit in the inline buffer; the write
that crosses the threshold allocates exactly one physical file and empties
the buffer; and flushing a nonempty below-threshold buffer also produces
exactly one file — so 100 small inserts plus a flush give 1 file, not 100. -/
theorem inlining_threshold_spec (τ : ℕ) (ws : List WriteOp)
    (h : allBelow τ 0 ws = true) :
    (stageAll τ initBuf ws).filesAllocated = 0 ∧
    (stageAll τ initBuf ws).pending = flatRows ws ∧
    (∀ w : WriteOp, τ ≤ sizeSum ws + w.size →
      stageAll τ initBuf (ws ++ [w]) = ⟨[], 0, 1⟩) ∧
    (flatRows ws ≠ [] → flushBuffer (stageAll τ initBuf ws) = ⟨[], 0, 1⟩) := by
  have hmain : stageAll τ initBuf ws = ⟨flatRows ws, sizeSum ws, 0⟩ := by
    have hb : allBelow τ (initBuf.pendingSize) ws = true := h
    have := stageAll_below τ ws initBuf hb
    simpa [initBuf] using this
  refine ⟨by rw [hmain], by rw [hmain], fun w hw => ?_, fun hne => ?_⟩
  · have hstep : stageAll τ initBuf (ws ++ [w]) =
        stageWrite τ (stageAll τ initBuf ws) w := by
      unfold stageAll
      rw [List.foldl_append]
      rfl
    rw [hstep, hmain]
    unfold stageWrite
    rw [if_neg (by dsimp only; omega)]
  · rw [hmain]
    unfold flushBuffer
    rw [if_neg (by simpa using hne)]

/-- Witness for `inlining_threshold_spec`: the demo's 100 single-row inserts
stay below the threshold, allocate no file while buffered, and the flush
produces exactly 1 physical file. -/
theorem inlining_threshold_spec_w :
    (stageAll inlineThreshold initBuf hundredWrites).filesAllocated = 0 ∧
    flushBuffer (stageAll inlineThreshold initBuf hundredWrites) = ⟨[], 0, 1⟩ :=
  ⟨(inlining_threshold_spec inlineThreshold hundredWrites (by decide)).1,
   (inlining_threshold_spec inlineThreshold hundredWrites (by decide)).2.2.2 (by decide)⟩

end DuckLake

namespace DuckLake

/-- In a `Pairwise R` list, every member is the last element or `R`-below
it. -/
theorem getLast?_of_pairwise {α : Type} {R : α → α → Prop} :
    ∀ (l : List α), l.Pairwise R → ∀ a, l.getLast? = some a →
      ∀ b ∈ l, b = a ∨ R b a := by
  intro l
  induction l with
  | nil =>
    intro _ a ha
    cases ha
  | cons x xs ih =>
    intro hp a ha b hb
    cases xs with
    | nil =>
      have hax : x = a := by simpa using ha
      have hbx : b = x := by simpa using hb
      left
      rw [hbx, hax]
    | cons y ys =>
      rw [List.getLast?_cons_cons] at ha
      rcases List.mem_cons.1 hb with rfl | hb2
      · right
        exact (List.pairwise_cons.mp hp).1 a (List.mem_of_mem_getLast? ha)
      · exact ih (List.pairwise_cons.mp hp).2 a ha b hb2

/-- C7: timestamp-based time travel resolves to the manifest of the highest
snapshot id whose timestamp is at or before the target, and a target before
the table's creation snapshot fails with the no-snapshot error. -/
theorem resolveTimestamp_spec (t : Table) (ts : ℕ)
    (hasc : t.manifestHistory.Pairwise (fun a b => a.snap < b.snap))
    (hmono : t.manifestHistory.Pairwise (fun a b => a.time ≤ b.time)) :
    (∀ sv m, resolveTimestamp t ts = .ok (sv, m) →
      m.time ≤ ts ∧ ∀ m' ∈ t.manifestHistory, m'.time ≤ ts → m'.snap ≤ m.snap) ∧
    (∀ m0, t.manifestHistory.head? = some m0 → ts < m0.time →
      resolveTimestamp t ts = .error .noSnapshot) := by
  constructor
  · intro sv m hok
    unfold resolveTimestamp at hok
    cases hm : lastLE Manifest.time ts t.manifestHistory with
    | none =>
      rw [hm] at hok
      simp at hok
    | some mf =>
      rw [hm] at hok
      dsimp only at hok
      cases hs : lastLE SchemaVersion.validFrom mf.snap t.schemaHistory with
      | none =>
        rw [hs] at hok
        simp at hok
      | some svf =>
        rw [hs] at hok
        have hpair : (svf, mf) = (sv, m) := Except.ok.inj hok
        injection hpair with h1 h2
        subst h1
        subst h2
        obtain ⟨hmem, hle⟩ := lastLE_mem Manifest.time ts t.manifestHistory _ hm
        refine ⟨hle, fun m' hm' hm'le => ?_⟩
        have hm'f : m' ∈ t.manifestHistory.filter (fun x => Manifest.time x ≤ ts) := by
          rw [List.mem_filter]
          exact ⟨hm', by simpa using hm'le⟩
        have hpf : (t.manifestHistory.filter
            (fun x => Manifest.time x ≤ ts)).Pairwise (fun a b => a.snap < b.snap) :=
          List.Pairwise.sublist (List.filter_sublist _) hasc
        have hlast : (t.manifestHistory.filter
            (fun x => Manifest.time x ≤ ts)).getLast? = some mf := hm
        rcases getLast?_of_pairwise _ hpf mf hlast m' hm'f with rfl | hlt
        · exact le_rfl
        · exact le_of_lt hlt
  · intro m0 h0 hlt
    unfold resolveTimestamp
    have hemp : t.manifestHistory.filter (fun x => Manifest.time x ≤ ts) = [] := by
      rw [List.filter_eq_nil_iff]
      intro m hm
      have hge : m0.time ≤ m.time := by
        cases hl : t.manifestHistory with
        | nil =>
          rw [hl] at hm
          cases hm
        | cons x tl =>
          rw [hl] at h0 hm
          have hx : x = m0 := by simpa using h0
          subst hx
          rcases List.mem_cons.1 hm with rfl | hm2
          · exact le_rfl
          · exact (List.pairwise_cons.mp (hl ▸ hmono)).1 m hm2
      simp only [decide_eq_true_eq]
      omega
    have hnone : lastLE Manifest.time ts t.manifestHistory = none := by
      unfold lastLE
      rw [hemp]
      rfl
    rw [hnone]

/-- Witness for `resolveTimestamp_spec`: on a table with snapshots at times
10 and 20, the target time 15 resolves to the snapshot of time 10 and the
target time 5 — before the creation snapshot — fails with the no-snapshot
error. -/
theorem resolveTimestamp_spec_w :
    resolveTimestamp travelT 15 = .ok (travelSV, travelM0) ∧
    travelM0.time ≤ 15 ∧
    resolveTimestamp travelT 5 = .error .noSnapshot :=
  ⟨by decide,
   ((resolveTimestamp_spec travelT 15 (by decide) (by decide)).1 travelSV travelM0
     (by decide)).1,
   (resolveTimestamp_spec travelT 5 (by decide) (by decide)).2 travelM0
     (by decide) (by decide)⟩

end DuckLake

namespace DuckLake

/-- Appending a history element with key at most the target makes it the
`lastLE` selection. -/
theorem lastLE_concat_le {α : Type} (key : α → ℕ) (v : ℕ) (l : List α) (a : α)
    (h : key a ≤ v) : lastLE key v (l ++ [a]) = some a := by
  unfold lastLE
  rw [List.filter_append]
  have hf : List.filter (fun x => key x ≤ v) [a] = [a] := by
    simp [List.filter_cons, decide_eq_true h]
  rw [hf]
  exact List.getLast?_concat _

/-- The rows of the last manifest's entries are the current rows. -/
theorem lastEntries_rows (t : Table) :
    ((lastEntries t).map Entry.rows).join = t.currentRows := by
  unfold lastEntries Table.currentRows
  cases t.manifestHistory.getLast? with
  | none => rfl
  | some m => rfl

/-- Every current row lives in some manifest of the history. -/
theorem currentRows_mem_manifest (t : Table) (r : Row) (hr : r ∈ t.currentRows) :
    ∃ m ∈ t.manifestHistory, r ∈ m.rows := by
  unfold Table.currentRows at hr
  cases hl : t.manifestHistory.getLast? with
  | none =>
    rw [hl] at hr
    cases hr
  | some m =>
    rw [hl] at hr
    exact ⟨m, List.mem_of_mem_getLast? hl, hr⟩

/-- Padding a short row against a schema extended by one column puts that
column's default at the new column's index. -/
theorem padRow_concat_get (cols : List Column) (c : Column) (r : Row)
    (hlen : r.length ≤ cols.length) :
    (padRow (cols ++ [c]) r)[cols.length]? = some (c.default.getD .null) := by
  unfold padRow
  rw [List.getElem?_append_right hlen, List.getElem?_map, List.getElem?_drop]
  have he : r.length + (cols.length - r.length) = cols.length := by omega
  rw [he, List.getElem?_concat_length]
  rfl

/-- The shape of `applyTable` for a transaction staging exactly one
add-column change: entries are reused unrewritten, one new SchemaVersion is
appended, the pointer advances. -/
theorem applyTable_ddl (n time : ℕ) (tx : Transaction) (t : Table) (c : Column)
    (hmuts : mutsFor tx t.name = [.addColumn c]) :
    applyTable n time tx t =
      { t with
        manifestHistory := t.manifestHistory ++ [⟨n, time, lastEntries t⟩],
        schemaHistory := t.schemaHistory ++
          [⟨t.schemaHistory.length, t.currentColumns ++ [c], n⟩],
        currentSnap := n } := by
  have htx : txResult n tx t = (t.currentColumns ++ [c], lastEntries t) := by
    unfold txResult
    rw [hmuts]
    rfl
  unfold applyTable
  rw [hmuts, htx]
  rfl

/-- C4: an ALTER TABLE adding a defaulted column committed as snapshot K
leaves the view at K−1 exactly as it was (in particular its schema has no
such column), while the view at K carries the new SchemaVersion whose last
column is the added one, over the same unrewritten rows, each padded with
the column's default at the new index. -/
theorem add_column_versioned (cat : Catalog) (nm : String) (t : Table) (c : Column)
    (tx : Transaction) (cat' : Catalog)
    (ht : cat.findTable nm = some t)
    (hmuts : mutsFor tx t.name = [.addColumn c])
    (hc : commit cat tx = .ok cat')
    (hpos : 0 < cat.nextSnapshotId)
    (hnew : ∀ sv ∈ t.schemaHistory, c.name ∉ sv.columns.map Column.name)
    (hlen : ∀ m ∈ t.manifestHistory, ∀ r ∈ m.rows, r.length ≤ t.currentColumns.length) :
    cat'.findTable nm = some (applyTable cat.nextSnapshotId cat.clock tx t) ∧
    queryAt (applyTable cat.nextSnapshotId cat.clock tx t) (cat.nextSnapshotId - 1) =
      queryAt t (cat.nextSnapshotId - 1) ∧
    (∀ sv rows, queryAt t (cat.nextSnapshotId - 1) = .ok (sv, rows) →
      c.name ∉ sv.columns.map Column.name) ∧
    queryAt (applyTable cat.nextSnapshotId cat.clock tx t) cat.nextSnapshotId =
      .ok (⟨t.schemaHistory.length, t.currentColumns ++ [c], cat.nextSnapshotId⟩,
        t.currentRows.map (padRow (t.currentColumns ++ [c]))) ∧
    (∀ r ∈ t.currentRows,
      (padRow (t.currentColumns ++ [c]) r)[t.currentColumns.length]? =
        some (c.default.getD .null)) := by
  have hcat : cat' = applyTx cat tx := commit_ok_eq _ _ _ hc
  refine ⟨?_, ?_, ?_, ?_, ?_⟩
  · rw [hcat, findTable_applyTx, ht]
    rfl
  · exact queryAt_applyTable t _ _ _ tx (Nat.sub_lt hpos Nat.one_pos)
  · intro sv rows hq
    unfold queryAt at hq
    cases hrv : resolveVersion t (cat.nextSnapshotId - 1) with
    | error e =>
      rw [hrv] at hq
      dsimp only [Except.map] at hq
      exact Except.noConfusion hq
    | ok p =>
      rw [hrv] at hq
      obtain ⟨sv0, m0⟩ := p
      dsimp only [Except.map] at hq
      have hpair := Except.ok.inj hq
      have hsv : sv0 = sv := congrArg Prod.fst hpair
      subst hsv
      unfold resolveVersion at hrv
      cases hm : lastLE Manifest.snap (cat.nextSnapshotId - 1) t.manifestHistory with
      | none =>
        rw [hm] at hrv
        simp at hrv
      | some mf =>
        rw [hm] at hrv
        cases hsl : lastLE SchemaVersion.validFrom (cat.nextSnapshotId - 1) t.schemaHistory with
        | none =>
          rw [hsl] at hrv
          simp at hrv
        | some svf =>
          rw [hsl] at hrv
          have hps : (svf, mf) = (sv0, m0) := Except.ok.inj hrv
          have hsv0 : svf = sv0 := congrArg Prod.fst hps
          obtain ⟨hmem, -⟩ := lastLE_mem SchemaVersion.validFrom _ _ _ hsl
          exact hsv0 ▸ hnew svf hmem
  · rw [applyTable_ddl _ _ _ _ _ hmuts]
    unfold queryAt resolveVersion
    dsimp only
    rw [lastLE_concat_le Manifest.snap cat.nextSnapshotId t.manifestHistory
        ⟨cat.nextSnapshotId, cat.clock, lastEntries t⟩ (le_refl _),
      lastLE_concat_le SchemaVersion.validFrom cat.nextSnapshotId t.schemaHistory
        ⟨t.schemaHistory.length, t.currentColumns ++ [c], cat.nextSnapshotId⟩ (le_refl _)]
    dsimp only [Except.map]
    rw [show Manifest.rows ⟨cat.nextSnapshotId, cat.clock, lastEntries t⟩ =
      t.currentRows from lastEntries_rows t]
  · intro r hr
    obtain ⟨m, hmm, hrm⟩ := currentRows_mem_manifest t r hr
    exact padRow_concat_get _ _ _ (hlen m hmm r hrm)

end DuckLake

namespace DuckLake

/-- Witness for `add_column_versioned`: adding `priority INTEGER DEFAULT 5`
to the demo-3 events table commits as snapshot 1; the view at snapshot 1
carries the new schema with `priority` last over the unrewritten rows, and
the first pre-existing row reads value 5 at the new column. -/
theorem add_column_versioned_w :
    queryAt (applyTable eventsCat.nextSnapshotId eventsCat.clock addPrioTx eventsT)
        eventsCat.nextSnapshotId =
      .ok (⟨eventsT.schemaHistory.length, eventsT.currentColumns ++ [prioCol],
            eventsCat.nextSnapshotId⟩,
        eventsT.currentRows.map (padRow (eventsT.currentColumns ++ [prioCol]))) ∧
    (padRow (eventsT.currentColumns ++ [prioCol])
        [.int 1, .str "user_login", .str "d1"])[eventsT.currentColumns.length]? =
      some (prioCol.default.getD .null) :=
  ⟨(add_column_versioned eventsCat "events" eventsT prioCol addPrioTx
      (applyTx eventsCat addPrioTx) (by decide) (by decide) (by decide) (by decide)
      (by decide) (by decide)).2.2.2.1,
   (add_column_versioned eventsCat "events" eventsT prioCol addPrioTx
      (applyTx eventsCat addPrioTx) (by decide) (by decide) (by decide) (by decide)
      (by decide) (by decide)).2.2.2.2
     [.int 1, .str "user_login", .str "d1"] (by decide)⟩

end DuckLake

namespace DuckLake

/-- An entry built by `mkEntry` carries exactly the staged rows, whether it
was inlined or written to a file. -/
theorem mkEntry_rows (ref : ℕ) (rows : List Row) : (mkEntry ref rows).rows = rows := by
  unfold mkEntry
  by_cases h : rows.length < inlineThreshold
  · rw [if_pos h]
    rfl
  · rw [if_neg h]
    rfl

/-- The shape of `applyTable` for a transaction staging exactly one
unqualified delete: the new manifest is empty, histories otherwise keep. -/
theorem applyTable_deleteAll (n time : ℕ) (tx : Transaction) (t : Table)
    (hmuts : mutsFor tx t.name = [.deleteAll]) :
    applyTable n time tx t =
      { t with
        manifestHistory := t.manifestHistory ++ [⟨n, time, []⟩],
        currentSnap := n } := by
  have htx : txResult n tx t = (t.currentColumns, []) := by
    unfold txResult
    rw [hmuts]
    rfl
  unfold applyTable
  rw [hmuts, htx]
  rfl

/-- The shape of `applyTable` for a transaction staging exactly one insert:
the new manifest is the prior entries plus one staged entry. -/
theorem applyTable_insert (n time : ℕ) (tx : Transaction) (t : Table) (rows : List Row)
    (hmuts : mutsFor tx t.name = [.insertRows rows]) :
    applyTable n time tx t =
      { t with
        manifestHistory := t.manifestHistory ++
          [⟨n, time, lastEntries t ++ [mkEntry n rows]⟩],
        currentSnap := n } := by
  have htx : txResult n tx t = (t.currentColumns, lastEntries t ++ [mkEntry n rows]) := by
    unfold txResult
    rw [hmuts]
    rfl
  unfold applyTable
  rw [hmuts, htx]
  rfl

/-- C3: after an unqualified DELETE commits, the table's current row set is
empty while the last pre-delete snapshot N still resolves to exactly the old
rows; a committed INSERT of that time-travelled row set restores the current
row count to exactly its pre-delete value. -/
theorem delete_then_restore (cat : Catalog) (nm : String) (t : Table)
    (N : ℕ) (sv : SchemaVersion) (rows : List Row) (cat1 cat2 : Catalog)
    (ht : cat.findTable nm = some t)
    (hq : queryAt t N = .ok (sv, rows))
    (hN : N < cat.nextSnapshotId)
    (hcount : rows.length = t.currentRows.length)
    (hdel : commit cat (deleteTx t) = .ok cat1)
    (hins : commit cat1
      (restoreTx (applyTable cat.nextSnapshotId cat.clock (deleteTx t) t) rows) =
        .ok cat2) :
    (applyTable cat.nextSnapshotId cat.clock (deleteTx t) t).currentRows = [] ∧
    cat1.findTable nm = some (applyTable cat.nextSnapshotId cat.clock (deleteTx t) t) ∧
    queryAt (applyTable cat.nextSnapshotId cat.clock (deleteTx t) t) N = .ok (sv, rows) ∧
    (cat2.findTable nm).map (fun u => u.currentRows.length) =
      some t.currentRows.length := by
  have hmuts1 : mutsFor (deleteTx t) t.name = [.deleteAll] := by
    unfold mutsFor deleteTx
    simp
  have ht1 := applyTable_deleteAll cat.nextSnapshotId cat.clock (deleteTx t) t hmuts1
  have hcat1 : cat1 = applyTx cat (deleteTx t) := commit_ok_eq _ _ _ hdel
  have hrows1 : (applyTable cat.nextSnapshotId cat.clock (deleteTx t) t).currentRows = [] := by
    rw [ht1]
    unfold Table.currentRows
    dsimp only
    rw [List.getLast?_concat]
    rfl
  have hfind1 : cat1.findTable nm =
      some (applyTable cat.nextSnapshotId cat.clock (deleteTx t) t) := by
    rw [hcat1, findTable_applyTx, ht]
    rfl
  refine ⟨hrows1, hfind1, ?_, ?_⟩
  · rw [queryAt_applyTable t _ _ N (deleteTx t) hN]
    exact hq
  · have hname2 : (applyTable cat.nextSnapshotId cat.clock (deleteTx t) t).name = t.name :=
      applyTable_name _ _ _ _
    have hmuts2 : mutsFor
        (restoreTx (applyTable cat.nextSnapshotId cat.clock (deleteTx t) t) rows)
        (applyTable cat.nextSnapshotId cat.clock (deleteTx t) t).name =
        [.insertRows rows] := by
      unfold mutsFor restoreTx
      simp
    have hcat2 : cat2 = applyTx cat1
        (restoreTx (applyTable cat.nextSnapshotId cat.clock (deleteTx t) t) rows) :=
      commit_ok_eq _ _ _ hins
    have hfind2 : cat2.findTable nm = some (applyTable cat1.nextSnapshotId cat1.clock
        (restoreTx (applyTable cat.nextSnapshotId cat.clock (deleteTx t) t) rows)
        (applyTable cat.nextSnapshotId cat.clock (deleteTx t) t)) := by
      rw [hcat2, findTable_applyTx, hfind1]
      rfl
    have hle1 : lastEntries (applyTable cat.nextSnapshotId cat.clock (deleteTx t) t) = [] := by
      rw [ht1]
      unfold lastEntries
      dsimp only
      rw [List.getLast?_concat]
    have ht2 := applyTable_insert cat1.nextSnapshotId cat1.clock
      (restoreTx (applyTable cat.nextSnapshotId cat.clock (deleteTx t) t) rows)
      (applyTable cat.nextSnapshotId cat.clock (deleteTx t) t) rows hmuts2
    have hrows2 : (applyTable cat1.nextSnapshotId cat1.clock
        (restoreTx (applyTable cat.nextSnapshotId cat.clock (deleteTx t) t) rows)
        (applyTable cat.nextSnapshotId cat.clock (deleteTx t) t)).currentRows = rows := by
      rw [ht2]
      unfold Table.currentRows
      dsimp only
      rw [List.getLast?_concat, hle1]
      unfold Manifest.rows
      dsimp only
      rw [List.nil_append]
      simp [mkEntry_rows]
    rw [hfind2]
    dsimp only [Option.map_some']
    rw [hrows2, hcount]

/-- Witness for `delete_then_restore`: the demo-2 customers catalog — the
unqualified DELETE commits and empties the table, snapshot 0 still shows
both customers, and the recovery INSERT from snapshot 0 restores the count
to its pre-delete value. -/
theorem delete_then_restore_w :
    custT1.currentRows = [] ∧
    custCat1.findTable "customers" = some custT1 ∧
    queryAt custT1 0 = .ok (custSV, custRows) ∧
    (custCat2.findTable "customers").map (fun u => u.currentRows.length) =
      some custT.currentRows.length :=
  delete_then_restore custCat "customers" custT 0 custSV custRows custCat1 custCat2
    (by decide) (by decide) (by decide) (by decide) (by decide) (by decide)

end DuckLake
